import Mathlib

/-!
Verification development for `hand_tracking.py`: a shallow embedding of the
hand / fingertip tracker and its gesture-derivation stage, together with
theorems settling the behavioural claims about it.

Modelling conventions:
* pixel points are pairs of integers (`Pt`);
* quantities the Python code holds as floats that arise from exact integer or
  rational arithmetic (moments ratios, `w/2`, areas) are modelled as `ℚ`;
* Euclidean distances (`np.hypot`, `** 0.5`) are modelled as exact reals via
  `Real.sqrt`; the comparison `np.hypot dx dy > 25` made inside the fingertip
  walk is carried out on the (equivalent, decidable) squared form
  `dx^2 + dy^2 > 625`, and a bridge lemma relates the two;
* the opaque OpenCV primitives (`cv2.findContours`, `cv2.contourArea`,
  `cv2.moments`, `cv2.convexHull`) are inputs of the embedding: a `Contour`
  carries the area, the moments and the convex-hull points that OpenCV would
  return for it; and the MediaPipe landmark model is an input supplying the
  21-point sequences;
* Python `sorted` is a stable sort and is embedded as `List.insertionSort`
  (also stable); `int()` truncation toward zero is `pyInt`.
-/

/-- A 2-D pixel point with integer coordinates. -/
abbrev Pt := ℤ × ℤ

/-- Squared Euclidean distance between two points, in exact integer
arithmetic. -/
def hypotSq (p q : Pt) : ℤ := (p.1 - q.1) ^ 2 + (p.2 - q.2) ^ 2

/-- Euclidean distance between two pixel points, as an exact real:
the meaning of `np.hypot(p[0]-q[0], p[1]-q[1])` and of
`(dx*dx + dy*dy) ** 0.5` in the source. -/
noncomputable def hypot (p q : Pt) : ℝ := Real.sqrt ((hypotSq p q : ℤ) : ℝ)

/-- Frame diagonal `(w*w + h*h) ** 0.5` used for normalization. -/
noncomputable def frameDiag (w h : ℕ) : ℝ := Real.sqrt ((w * w + h * h : ℕ) : ℝ)

/-- Python `int()` applied to an exact rational: truncation toward zero. -/
def pyInt (q : ℚ) : ℤ := if q < 0 then ⌈q⌉ else ⌊q⌋

/-- The five finger names used by the tracker (`fingertips_named` keys, in
dict insertion order). -/
inductive Finger : Type where
  | thumb
  | index
  | middle
  | ring
  | pinky
  deriving DecidableEq

/-- Left/right hand classification. -/
inductive Side : Type where
  | left
  | right
  deriving DecidableEq

/-- Per-hand detection record, the `info` dict built by either backend. -/
structure HandInfo where
  detected : Bool
  center : Option Pt
  landmarks : Option (List Pt)
  fingertips : List Pt
  fingertips_named : Option (Finger → Pt)
  thumb_tip : Option Pt
  index_tip : Option Pt
  distance_index_thumb : ℝ
  hand_size_norm : Option ℝ

/-- The `ninfo` dict of the main loop: `dict(info)` plus the normalized,
derived gesture fields. -/
structure NormHandInfo where
  info : HandInfo
  index_norm : Option (ℚ × ℚ)
  thumb_norm : Option (ℚ × ℚ)
  finger_dist_norm : Option (List (Finger × ℝ))
  distance_norm : ℝ
  pinch_finger : Option Finger
  pinch_distance_norm : Option ℝ
  side : Option Side
  hand_size_norm : Option ℝ

instance : DecidableRel (fun p q : Pt => p.2 ≤ q.2) :=
  fun p q => inferInstanceAs (Decidable (p.2 ≤ q.2))

instance : DecidableRel (fun p q : Pt => p.1 ≤ q.1) :=
  fun p q => inferInstanceAs (Decidable (p.1 ≤ q.1))

instance {α : Type} [LinearOrder α] :
    DecidableRel (fun a b : Finger × α => a.2 ≤ b.2) :=
  fun a b => inferInstanceAs (Decidable (a.2 ≤ b.2))

/-- One extracted external contour, with the values the opaque OpenCV
primitives (`cv2.contourArea`, `cv2.moments`, `cv2.convexHull`) return
for it. -/
structure Contour where
  area : ℚ
  m00 : ℚ
  m10 : ℚ
  m01 : ℚ
  hull : List Pt

instance : DecidableRel (fun a b : Contour => b.area ≤ a.area) :=
  fun a b => inferInstanceAs (Decidable (b.area ≤ a.area))

namespace OpenCVHandTracker

/-- Centroid from the contour moments, with the degenerate-moment fallback
to the frame center: `int(M[m10]/M[m00])`, else `(w//2, h//2)`. -/
def contour_center (c : Contour) (w h : ℕ) : Pt :=
  if c.m00 ≠ 0 then (pyInt (c.m10 / c.m00), pyInt (c.m01 / c.m00))
  else ((w / 2 : ℕ), (h / 2 : ℕ))

/-- One iteration body of the greedy fingertip-candidate loop: the first point
is accepted outright, a later point only if it is farther than 25 px from
every accepted point (`all(np.hypot(...) > 25 for q in tips)`, carried out on
squares: `hypot > 25 ↔ sq > 625`). -/
def tips_step (p : Pt) (tips : List Pt) : List Pt :=
  if tips = [] then tips ++ [p]
  else if tips.all (fun q => decide (625 < hypotSq p q)) then tips ++ [p]
  else tips

/-- The greedy fingertip-candidate loop over the hull points sorted by `y`;
the loop breaks once `5 <= len(tips)` (checked after each iteration body). -/
def fingertip_walk : List Pt → List Pt → List Pt
  | [], tips => tips
  | p :: rest, tips =>
    let tips' := tips_step p tips
    if 5 ≤ tips'.length then tips' else fingertip_walk rest tips'

/-- Thumb/index role assignment: when at least 2 candidates exist, stable-sort
the first 3 (`tips[:3]`) by `x` and take the first (`[0]`, thumb) and the
last (`[-1]`, index), with their Euclidean distance; otherwise the fields
stay unset and the distance stays `0.0`. -/
noncomputable def thumb_index_assign (tips : List Pt) : Option Pt × Option Pt × ℝ :=
  if 2 ≤ tips.length then
    let topk_sorted_x := (tips.take 3).insertionSort (fun p q => p.1 ≤ q.1)
    match topk_sorted_x.head?, topk_sorted_x.getLast? with
    | some tt, some it => (some tt, some it, hypot it tt)
    | _, _ => (none, none, 0)
  else (none, none, 0)

/-- `OpenCVHandTracker._extract_hand_info_from_contour`. -/
noncomputable def extract_hand_info_from_contour (c : Contour) (w h : ℕ) : HandInfo :=
  let tips := fingertip_walk (c.hull.insertionSort (fun p q => p.2 ≤ q.2)) []
  let ti := thumb_index_assign tips
  { detected := true
    center := some (contour_center c w h)
    landmarks := none
    fingertips := tips
    fingertips_named := none
    thumb_tip := ti.1
    index_tip := ti.2.1
    distance_index_thumb := ti.2.2
    hand_size_norm := none }

/-- Keep a contour only when its area is not below the tuned minimum:
`if area < 2000: continue`. -/
def keep_area (c : Contour) : Bool := !decide (c.area < 2000)

/-- The contour-selection step of `process`: stable-sort by area descending,
slice to the 2 largest, then drop the below-threshold ones. -/
def select_contours (contours : List Contour) : List Contour :=
  ((contours.insertionSort (fun a b => b.area ≤ a.area)).take 2).filter keep_area

/-- The contour selection as the specification words it: discard the
below-threshold candidates first, then take at most the 2 largest
(below-threshold candidates do not count against the limit). -/
def select_contours_spec (contours : List Contour) : List Contour :=
  ((contours.insertionSort (fun a b => b.area ≤ a.area)).filter keep_area).take 2

/-- `deque(maxlen=6).append`: the rolling temporal buffer keeps the 6 most
recent per-frame hand lists, oldest overwritten first. -/
def push_history (history : List (List HandInfo)) (x : List HandInfo) : List (List HandInfo) :=
  ((history ++ [x]).drop ((history ++ [x]).length - 6))

/-- `OpenCVHandTracker.process`: on an empty contour list it returns early
(before the history append); otherwise it extracts a hand from each selected
contour and appends the output list to the history buffer. -/
noncomputable def process (contours : List Contour) (w h : ℕ)
    (history : List (List HandInfo)) : List HandInfo × List (List HandInfo) :=
  match contours with
  | [] => ([], history)
  | _ :: _ =>
    let hands_out := (select_contours contours).map
      (fun c => extract_hand_info_from_contour c w h)
    (hands_out, push_history history hands_out)

end OpenCVHandTracker

namespace MediaPipeHandTracker

/-- The fixed landmark index of each fingertip name (0 = wrist, 9 = middle
base are used for the center). -/
def tip_landmark : Finger → ℕ
  | .thumb => 4
  | .index => 8
  | .middle => 12
  | .ring => 16
  | .pinky => 20

/-- The `fingertips_named` mapping assembled from the landmark sequence. -/
def named_map (pts : List Pt) : Finger → Pt := fun f => pts.getD (tip_landmark f) (0, 0)

/-- Assembly of one `HandInfo` from one hand's pixel landmark sequence `pts`
(`MediaPipeHandTracker.process` loop body). The external contract guarantees
21 landmarks; out-of-range indices fall back to `(0, 0)` via `getD`. -/
noncomputable def hand_info (pts : List Pt) (w h : ℕ) : HandInfo :=
  { detected := true
    center := some
      (pyInt ((((pts.getD 0 (0, 0)).1 + (pts.getD 9 (0, 0)).1 : ℤ) : ℚ) / 2),
       pyInt ((((pts.getD 0 (0, 0)).2 + (pts.getD 9 (0, 0)).2 : ℤ) : ℚ) / 2))
    landmarks := some pts
    fingertips := [pts.getD 4 (0, 0), pts.getD 8 (0, 0), pts.getD 12 (0, 0),
      pts.getD 16 (0, 0), pts.getD 20 (0, 0)]
    fingertips_named := some (named_map pts)
    thumb_tip := some (pts.getD 4 (0, 0))
    index_tip := some (pts.getD 8 (0, 0))
    distance_index_thumb := hypot (pts.getD 8 (0, 0)) (pts.getD 4 (0, 0))
    hand_size_norm := some (hypot (pts.getD 12 (0, 0)) (pts.getD 0 (0, 0)) / frameDiag w h) }

/-- `MediaPipeHandTracker.process`: one `HandInfo` per detected hand. -/
noncomputable def process (landmark_sets : List (List Pt)) (w h : ℕ) : List HandInfo :=
  landmark_sets.map (fun pts => hand_info pts w h)

end MediaPipeHandTracker

/-- The non-thumb finger names in `fingertips_named` iteration order (the
`for fname, pt in items()` loop skips `thumb` with `continue`). -/
def nonThumbFingers : List Finger := [.index, .middle, .ring, .pinky]

/-- Pinch selection over the distance map: stable-sort the entries by value
(`sorted(dist_map.items(), key=lambda kv: kv[1])`), and if the first entry is
strictly below the threshold, return its finger name. -/
def pinch_select {α : Type} [LinearOrder α] (dist_map : List (Finger × α))
    (pinch_thresh : α) : Option Finger :=
  match (dist_map.insertionSort (fun a b => a.2 ≤ b.2)).head? with
  | some e => if e.2 < pinch_thresh then some e.1 else none
  | none => none

/-- The gesture-derivation stage: the per-hand body of the main loop that
builds `ninfo` from `info` and the frame dimensions. -/
noncomputable def derive (info : HandInfo) (w h : ℕ) : NormHandInfo :=
  let diag := frameDiag w h
  let fm : Option (List (Finger × ℝ)) :=
    match info.thumb_tip, info.fingertips_named with
    | some thumb_pt, some nm =>
      some (nonThumbFingers.map (fun f => (f, hypot (nm f) thumb_pt / diag)))
    | _, _ => none
  let finger_min : Option Finger :=
    match fm with
    | some dist_map => pinch_select dist_map (0.05 : ℝ)
    | none => none
  { info := info
    index_norm := info.index_tip.map (fun p => ((p.1 : ℚ) / (w : ℚ), (p.2 : ℚ) / (h : ℚ)))
    thumb_norm := info.thumb_tip.map (fun p => ((p.1 : ℚ) / (w : ℚ), (p.2 : ℚ) / (h : ℚ)))
    finger_dist_norm := fm
    distance_norm := info.distance_index_thumb / diag
    pinch_finger := finger_min
    pinch_distance_norm :=
      match finger_min, fm with
      | some f, some dist_map => (dist_map.find? (fun e => decide (e.1 = f))).map Prod.snd
      | _, _ => none
    side :=
      match info.center with
      | some cpt => some (if (cpt.1 : ℚ) < (w : ℚ) / 2 then Side.left else Side.right)
      | none => none
    hand_size_norm := info.hand_size_norm }

/-! ## Helper lemmas -/

lemma hypotSq_nonneg (p q : Pt) : 0 ≤ hypotSq p q := by
  unfold hypotSq; positivity

lemma hypotSq_comm (p q : Pt) : hypotSq p q = hypotSq q p := by
  unfold hypotSq; ring

lemma hypot_nonneg (p q : Pt) : 0 ≤ hypot p q := Real.sqrt_nonneg _

/-- The squared separation test used in the code is the Euclidean one of the
claim: `dx^2 + dy^2 > 625` gives `hypot > 25`. -/
lemma lt_hypot_of_sq {p q : Pt} (h : (625 : ℤ) < hypotSq p q) : (25 : ℝ) < hypot p q := by
  have h' : ((625 : ℤ) : ℝ) < ((hypotSq p q : ℤ) : ℝ) := by exact_mod_cast h
  have h25 : (25 : ℝ) = Real.sqrt 625 := by
    rw [show (625 : ℝ) = 25 ^ 2 by norm_num, Real.sqrt_sq (by norm_num : (0:ℝ) ≤ 25)]
  rw [hypot, h25]
  exact Real.sqrt_lt_sqrt (by norm_num) (by exact_mod_cast h')

lemma hypot_comm (p q : Pt) : hypot p q = hypot q p := by
  unfold hypot; rw [hypotSq_comm]

/-- Head of a stable sort by a key: it is an element of the list whose key is
minimal. -/
lemma head_insertionSort_key_min {γ β : Type} [LinearOrder β] (key : γ → β)
    [DecidableRel (fun a b : γ => key a ≤ key b)] (l : List γ) (hne : l ≠ []) :
    ∃ e, (List.insertionSort (fun a b => key a ≤ key b) l).head? = some e ∧ e ∈ l ∧
      ∀ x ∈ l, key e ≤ key x := by
  haveI : IsTotal γ (fun a b => key a ≤ key b) := ⟨fun a b => le_total _ _⟩
  haveI : IsTrans γ (fun a b => key a ≤ key b) := ⟨fun a b c hab hbc => le_trans hab hbc⟩
  have hs := List.sorted_insertionSort (fun a b : γ => key a ≤ key b) l
  have hp := List.perm_insertionSort (fun a b : γ => key a ≤ key b) l
  cases hsort : List.insertionSort (fun a b : γ => key a ≤ key b) l with
  | nil =>
    rw [hsort] at hp
    exact absurd hp.symm.eq_nil hne
  | cons e t =>
    rw [hsort] at hs hp
    refine ⟨e, rfl, hp.subset (List.mem_cons_self e t), ?_⟩
    intro x hx
    rcases List.mem_cons.mp (hp.symm.subset hx) with h | h
    · exact h ▸ le_refl _
    · exact List.rel_of_sorted_cons hs x h

/-- In a list pairwise nondecreasing for a key, the last element has maximal
key. -/
lemma pairwise_key_le_getLast {γ β : Type} [LinearOrder β] (key : γ → β) (l : List γ)
    (hl : l.Pairwise (fun a b => key a ≤ key b)) (hne : l ≠ []) :
    ∀ x ∈ l, key x ≤ key (l.getLast hne) := by
  induction l with
  | nil => exact absurd rfl hne
  | cons a t ih =>
    intro x hx
    cases t with
    | nil =>
      simp only [List.mem_singleton] at hx
      subst hx
      simp [List.getLast]
    | cons b t' =>
      have hne' : b :: t' ≠ [] := by simp
      have hlast : (a :: b :: t').getLast hne = (b :: t').getLast hne' :=
        List.getLast_cons hne'
      rcases List.mem_cons.mp hx with h | h
      · subst h
        have h1 : ∀ y ∈ b :: t', key x ≤ key y := (List.pairwise_cons.mp hl).1
        rw [hlast]
        exact h1 _ (List.getLast_mem hne')
      · rw [hlast]
        exact ih (List.pairwise_cons.mp hl).2 hne' x h

/-- Last element of a stable sort by a key: it is an element of the list whose
key is maximal. -/
lemma getLast_insertionSort_key_max {γ β : Type} [LinearOrder β] (key : γ → β)
    [DecidableRel (fun a b : γ => key a ≤ key b)] (l : List γ) (hne : l ≠ []) :
    ∃ e, (List.insertionSort (fun a b => key a ≤ key b) l).getLast? = some e ∧ e ∈ l ∧
      ∀ x ∈ l, key x ≤ key e := by
  haveI : IsTotal γ (fun a b => key a ≤ key b) := ⟨fun a b => le_total _ _⟩
  haveI : IsTrans γ (fun a b => key a ≤ key b) := ⟨fun a b c hab hbc => le_trans hab hbc⟩
  have hs := List.sorted_insertionSort (fun a b : γ => key a ≤ key b) l
  have hp := List.perm_insertionSort (fun a b : γ => key a ≤ key b) l
  have hne' : List.insertionSort (fun a b : γ => key a ≤ key b) l ≠ [] := by
    intro h0
    rw [h0] at hp
    exact hne hp.symm.eq_nil
  refine ⟨(List.insertionSort (fun a b : γ => key a ≤ key b) l).getLast hne',
    List.getLast?_eq_getLast _ hne', hp.subset (List.getLast_mem hne'), ?_⟩
  intro x hx
  exact pairwise_key_le_getLast key _ hs hne' x (hp.symm.subset hx)

/-- Unfolding of one loop iteration of the walk. -/
lemma fingertip_walk_cons_eq (p : Pt) (rest tips : List Pt) :
    OpenCVHandTracker.fingertip_walk (p :: rest) tips =
      if 5 ≤ (OpenCVHandTracker.tips_step p tips).length
      then OpenCVHandTracker.tips_step p tips
      else OpenCVHandTracker.fingertip_walk rest (OpenCVHandTracker.tips_step p tips) := rfl

/-- The iteration body either appends the new point at the end or leaves the
accumulator unchanged. -/
lemma tips_step_cases (p : Pt) (tips : List Pt) :
    OpenCVHandTracker.tips_step p tips = tips ++ [p] ∨
      OpenCVHandTracker.tips_step p tips = tips := by
  unfold OpenCVHandTracker.tips_step
  split_ifs <;> simp

lemma tips_step_nil (p : Pt) : OpenCVHandTracker.tips_step p [] = [p] := by
  simp [OpenCVHandTracker.tips_step]

/-- The iteration body preserves pairwise 25-px separation. -/
lemma tips_step_pairwise (p : Pt) (tips : List Pt)
    (h : tips.Pairwise (fun a b => 625 < hypotSq a b)) :
    (OpenCVHandTracker.tips_step p tips).Pairwise (fun a b => 625 < hypotSq a b) := by
  unfold OpenCVHandTracker.tips_step
  split_ifs with h1 h2
  · simp [h1]
  · rw [List.pairwise_append]
    refine ⟨h, by simp, ?_⟩
    intro a ha b hb
    simp only [List.mem_singleton] at hb
    subst hb
    have := List.all_eq_true.mp h2 a ha
    rw [hypotSq_comm]
    exact of_decide_eq_true this
  · exact h

/-- The greedy walk only ever appends to its accumulator, and the appended
points are taken, in order, from the input list. -/
lemma fingertip_walk_append (l : List Pt) :
    ∀ acc, ∃ r, OpenCVHandTracker.fingertip_walk l acc = acc ++ r ∧ r.Sublist l := by
  induction l with
  | nil =>
    intro acc
    exact ⟨[], by simp [OpenCVHandTracker.fingertip_walk], List.nil_sublist _⟩
  | cons p rest ih =>
    intro acc
    rw [fingertip_walk_cons_eq]
    rcases tips_step_cases p acc with hstep | hstep <;> rw [hstep]
    · by_cases hbrk : 5 ≤ (acc ++ [p]).length
      · rw [if_pos hbrk]
        exact ⟨[p], rfl, by simp⟩
      · rw [if_neg hbrk]
        obtain ⟨r, hr, hsub⟩ := ih (acc ++ [p])
        exact ⟨p :: r, by rw [hr]; simp, List.Sublist.cons₂ p hsub⟩
    · by_cases hbrk : 5 ≤ acc.length
      · rw [if_pos hbrk]
        exact ⟨[], by simp, List.nil_sublist _⟩
      · rw [if_neg hbrk]
        obtain ⟨r, hr, hsub⟩ := ih acc
        exact ⟨r, hr, hsub.cons p⟩

/-- The walk accepts at most 5 candidates (starting below the cap). -/
lemma fingertip_walk_length (l : List Pt) :
    ∀ acc, acc.length < 5 → (OpenCVHandTracker.fingertip_walk l acc).length ≤ 5 := by
  induction l with
  | nil =>
    intro acc h
    rw [OpenCVHandTracker.fingertip_walk]
    exact h.le
  | cons p rest ih =>
    intro acc hacc
    rw [fingertip_walk_cons_eq]
    have h5 : (OpenCVHandTracker.tips_step p acc).length ≤ 5 := by
      rcases tips_step_cases p acc with hstep | hstep <;> rw [hstep]
      · simp only [List.length_append, List.length_singleton]
        omega
      · exact hacc.le
    by_cases hbrk : 5 ≤ (OpenCVHandTracker.tips_step p acc).length
    · rw [if_pos hbrk]
      exact h5
    · rw [if_neg hbrk]
      exact ih _ (lt_of_not_le hbrk)

/-- The walk preserves pairwise 25-px separation of the accumulator. -/
lemma fingertip_walk_pairwise (l : List Pt) :
    ∀ acc, acc.Pairwise (fun a b => 625 < hypotSq a b) →
      (OpenCVHandTracker.fingertip_walk l acc).Pairwise (fun a b => 625 < hypotSq a b) := by
  induction l with
  | nil =>
    intro acc h
    rw [OpenCVHandTracker.fingertip_walk]
    exact h
  | cons p rest ih =>
    intro acc hacc
    rw [fingertip_walk_cons_eq]
    have hpw := tips_step_pairwise p acc hacc
    by_cases hbrk : 5 ≤ (OpenCVHandTracker.tips_step p acc).length
    · rw [if_pos hbrk]
      exact hpw
    · rw [if_neg hbrk]
      exact ih _ hpw

/-- Walking from the empty accumulator accepts the first point outright. -/
lemma fingertip_walk_cons (p : Pt) (rest : List Pt) :
    OpenCVHandTracker.fingertip_walk (p :: rest) [] =
      OpenCVHandTracker.fingertip_walk rest [p] := by
  rw [fingertip_walk_cons_eq, tips_step_nil]
  simp

/-- In a list sorted by area descending, filtering out the below-threshold
areas commutes with slicing a prefix: the kept elements form a prefix. -/
lemma filter_take_of_sorted_desc :
    ∀ (l : List Contour), l.Pairwise (fun a b => b.area ≤ a.area) →
      ∀ n, (l.take n).filter OpenCVHandTracker.keep_area =
        (l.filter OpenCVHandTracker.keep_area).take n := by
  intro l
  induction l with
  | nil => intro _ n; simp
  | cons a t ih =>
    intro hl n
    cases n with
    | zero => simp
    | succ m =>
      rw [List.take_succ_cons, List.filter_cons, List.filter_cons]
      by_cases hk : OpenCVHandTracker.keep_area a
      · rw [if_pos hk, if_pos hk, List.take_succ_cons]
        rw [ih (List.pairwise_cons.mp hl).2 m]
      · rw [if_neg hk, if_neg hk]
        have hlt : a.area < 2000 := by
          by_contra hge
          exact hk (by simpa [OpenCVHandTracker.keep_area] using hge)
        have hall : ∀ b ∈ t, ¬ (OpenCVHandTracker.keep_area b = true) := by
          intro b hb
          have hba : b.area ≤ a.area := (List.pairwise_cons.mp hl).1 b hb
          simp only [OpenCVHandTracker.keep_area, Bool.not_eq_true', decide_eq_false_iff_not,
            Bool.not_eq_false, decide_eq_true_eq, not_not]
          exact lt_of_le_of_lt hba hlt
        have hft : t.filter OpenCVHandTracker.keep_area = [] :=
          List.filter_eq_nil_iff.mpr hall
        have hftm : (t.take m).filter OpenCVHandTracker.keep_area = [] :=
          List.filter_eq_nil_iff.mpr (fun b hb => hall b (List.take_subset m t hb))
        rw [hft, hftm]
        simp

/-- `find?` on a first-component match returns the unique entry with that key
when the keys are distinct. -/
lemma find?_key_of_nodup {β : Type} :
    ∀ (m : List (Finger × β)), (m.map Prod.fst).Nodup → ∀ e ∈ m,
      m.find? (fun x => decide (x.1 = e.1)) = some e := by
  intro m
  induction m with
  | nil => intro _ e he; exact absurd he (List.not_mem_nil e)
  | cons a t ih =>
    intro hnd e he
    rw [List.map_cons, List.nodup_cons] at hnd
    rcases List.mem_cons.mp he with h | h
    · subst h
      exact List.find?_cons_of_pos t (by simp)
    · have hne : ¬ (a.1 = e.1) := by
        intro hfst
        exact hnd.1 (hfst ▸ List.mem_map_of_mem Prod.fst h)
      rw [List.find?_cons_of_neg t (by simpa using hne)]
      exact ih hnd.2 e h

/-- Projection of `derive` onto the distance map. -/
lemma derive_finger_dist_norm (info : HandInfo) (w h : ℕ) :
    (derive info w h).finger_dist_norm =
      match info.thumb_tip, info.fingertips_named with
      | some thumb_pt, some nm =>
        some (nonThumbFingers.map (fun f => (f, hypot (nm f) thumb_pt / frameDiag w h)))
      | _, _ => none := rfl

/-- Projection of `derive` onto the pinch finger. -/
lemma derive_pinch_finger (info : HandInfo) (w h : ℕ) :
    (derive info w h).pinch_finger =
      match (derive info w h).finger_dist_norm with
      | some dist_map => pinch_select dist_map (0.05 : ℝ)
      | none => none := rfl

/-- Projection of `derive` onto the pinch distance. -/
lemma derive_pinch_distance_norm (info : HandInfo) (w h : ℕ) :
    (derive info w h).pinch_distance_norm =
      match (derive info w h).pinch_finger, (derive info w h).finger_dist_norm with
      | some f, some dist_map => (dist_map.find? (fun e => decide (e.1 = f))).map Prod.snd
      | _, _ => none := rfl

/-- Projection of `derive` onto the side classification. -/
lemma derive_side (info : HandInfo) (w h : ℕ) :
    (derive info w h).side =
      match info.center with
      | some cpt => some (if (cpt.1 : ℚ) < (w : ℚ) / 2 then Side.left else Side.right)
      | none => none := rfl

/-! ## Claim theorems -/

/-- C1: the Contour Selector returns at most 2 regions, and slicing the
descending-area sort to 2 before the minimum-area filter is equivalent to
filtering before slicing — a below-threshold candidate never displaces an
above-threshold one, and only contours with area at least 2000 are kept. -/
theorem contour_selector_slice_filter_agree (contours : List Contour) :
    OpenCVHandTracker.select_contours contours =
      OpenCVHandTracker.select_contours_spec contours ∧
    (OpenCVHandTracker.select_contours contours).length ≤ 2 := by
  haveI : IsTotal Contour (fun a b => b.area ≤ a.area) := ⟨fun a b => le_total _ _⟩
  haveI : IsTrans Contour (fun a b => b.area ≤ a.area) :=
    ⟨fun a b c h1 h2 => le_trans h2 h1⟩
  constructor
  · unfold OpenCVHandTracker.select_contours OpenCVHandTracker.select_contours_spec
    have hs : (contours.insertionSort (fun a b => b.area ≤ a.area)).Pairwise
        (fun a b : Contour => b.area ≤ a.area) :=
      List.sorted_insertionSort (fun a b : Contour => b.area ≤ a.area) contours
    exact filter_take_of_sorted_desc _ hs 2
  · exact le_trans (List.length_filter_le _ _) (List.length_take_le _ _)

/-- C2: the heuristic fingertip list has at most 5 points, and any two points
at distinct positions of the list are strictly more than 25 px apart in
Euclidean distance. -/
theorem fingertips_bounded_and_separated (c : Contour) (w h : ℕ) :
    (OpenCVHandTracker.extract_hand_info_from_contour c w h).fingertips.length ≤ 5 ∧
    ∀ i j,
      i < (OpenCVHandTracker.extract_hand_info_from_contour c w h).fingertips.length →
      j < (OpenCVHandTracker.extract_hand_info_from_contour c w h).fingertips.length →
      i ≠ j →
      (25 : ℝ) < hypot
        ((OpenCVHandTracker.extract_hand_info_from_contour c w h).fingertips.getD i (0, 0))
        ((OpenCVHandTracker.extract_hand_info_from_contour c w h).fingertips.getD j (0, 0)) := by
  have hfe : (OpenCVHandTracker.extract_hand_info_from_contour c w h).fingertips =
      OpenCVHandTracker.fingertip_walk
        (c.hull.insertionSort (fun p q => p.2 ≤ q.2)) [] := rfl
  constructor
  · rw [hfe]
    exact fingertip_walk_length _ [] (by simp)
  · intro i j hi hj hne
    have hpw : (OpenCVHandTracker.extract_hand_info_from_contour c w h).fingertips.Pairwise
        (fun a b => 625 < hypotSq a b) := by
      rw [hfe]
      exact fingertip_walk_pairwise _ [] List.Pairwise.nil
    rw [List.getD_eq_getElem _ _ hi, List.getD_eq_getElem _ _ hj]
    rcases lt_or_gt_of_ne hne with hlt | hgt
    · exact lt_hypot_of_sq (List.pairwise_iff_getElem.mp hpw i j hi hj hlt)
    · rw [hypot_comm]
      exact lt_hypot_of_sq (List.pairwise_iff_getElem.mp hpw j i hj hi hgt)

/-- C2 witness: a concrete contour whose hull gives two accepted fingertip
candidates farther than 25 px apart. -/
theorem fingertips_bounded_and_separated_witness :
    (0 <
      (OpenCVHandTracker.extract_hand_info_from_contour
        ⟨2500, 1, 0, 0, [(0, 0), (100, 0)]⟩ 640 480).fingertips.length) ∧
    (1 <
      (OpenCVHandTracker.extract_hand_info_from_contour
        ⟨2500, 1, 0, 0, [(0, 0), (100, 0)]⟩ 640 480).fingertips.length) ∧
    (25 : ℝ) < hypot
      ((OpenCVHandTracker.extract_hand_info_from_contour
        ⟨2500, 1, 0, 0, [(0, 0), (100, 0)]⟩ 640 480).fingertips.getD 0 (0, 0))
      ((OpenCVHandTracker.extract_hand_info_from_contour
        ⟨2500, 1, 0, 0, [(0, 0), (100, 0)]⟩ 640 480).fingertips.getD 1 (0, 0)) :=
  ⟨by decide, by decide,
    (fingertips_bounded_and_separated ⟨2500, 1, 0, 0, [(0, 0), (100, 0)]⟩ 640 480).2
      0 1 (by decide) (by decide) (by decide)⟩

/-- Characterization of the thumb/index role assignment. -/
lemma thumb_index_assign_spec (tips : List Pt) :
    (2 ≤ tips.length →
      ∃ tt it, OpenCVHandTracker.thumb_index_assign tips = (some tt, some it, hypot it tt) ∧
        tt ∈ tips.take 3 ∧ it ∈ tips.take 3 ∧
        ∀ p ∈ tips.take 3, tt.1 ≤ p.1 ∧ p.1 ≤ it.1) ∧
    (tips.length < 2 → OpenCVHandTracker.thumb_index_assign tips = (none, none, 0)) := by
  constructor
  · intro h2
    have hne3 : tips.take 3 ≠ [] := by
      intro h0
      have hl : (tips.take 3).length = min 3 tips.length := List.length_take 3 tips
      rw [h0] at hl
      simp only [List.length_nil] at hl
      omega
    obtain ⟨tt, htt, httm, httmin⟩ :=
      head_insertionSort_key_min (fun p : Pt => p.1) (tips.take 3) hne3
    obtain ⟨it, hlast, hitm, hitmax⟩ :=
      getLast_insertionSort_key_max (fun p : Pt => p.1) (tips.take 3) hne3
    refine ⟨tt, it, ?_, httm, hitm, fun p hp => ⟨httmin p hp, hitmax p hp⟩⟩
    unfold OpenCVHandTracker.thumb_index_assign
    rw [if_pos h2]
    simp only [htt, hlast]
  · intro hlt
    unfold OpenCVHandTracker.thumb_index_assign
    rw [if_neg (by omega : ¬ 2 ≤ tips.length)]

/-- C3: with at least 2 fingertip candidates the heuristic backend sets
`thumb_tip` to the leftmost and `index_tip` to the rightmost (by `x`) of the
first 3 candidates, both members of the fingertips list, and
`distance_index_thumb` is their Euclidean distance; with fewer than 2
candidates both stay unset and the distance stays `0` (the assignment is a
total function — no exception path exists). -/
theorem thumb_index_role_assignment (c : Contour) (w h : ℕ) :
    (2 ≤ (OpenCVHandTracker.extract_hand_info_from_contour c w h).fingertips.length →
      ∃ tt it,
        (OpenCVHandTracker.extract_hand_info_from_contour c w h).thumb_tip = some tt ∧
        (OpenCVHandTracker.extract_hand_info_from_contour c w h).index_tip = some it ∧
        tt ∈ (OpenCVHandTracker.extract_hand_info_from_contour c w h).fingertips.take 3 ∧
        it ∈ (OpenCVHandTracker.extract_hand_info_from_contour c w h).fingertips.take 3 ∧
        tt ∈ (OpenCVHandTracker.extract_hand_info_from_contour c w h).fingertips ∧
        it ∈ (OpenCVHandTracker.extract_hand_info_from_contour c w h).fingertips ∧
        (∀ p ∈ (OpenCVHandTracker.extract_hand_info_from_contour c w h).fingertips.take 3,
          tt.1 ≤ p.1 ∧ p.1 ≤ it.1) ∧
        (OpenCVHandTracker.extract_hand_info_from_contour c w h).distance_index_thumb =
          hypot it tt) ∧
    ((OpenCVHandTracker.extract_hand_info_from_contour c w h).fingertips.length < 2 →
      (OpenCVHandTracker.extract_hand_info_from_contour c w h).thumb_tip = none ∧
      (OpenCVHandTracker.extract_hand_info_from_contour c w h).index_tip = none ∧
      (OpenCVHandTracker.extract_hand_info_from_contour c w h).distance_index_thumb = 0) := by
  have hfe : (OpenCVHandTracker.extract_hand_info_from_contour c w h).fingertips =
      OpenCVHandTracker.fingertip_walk
        (c.hull.insertionSort (fun p q => p.2 ≤ q.2)) [] := rfl
  have hth : (OpenCVHandTracker.extract_hand_info_from_contour c w h).thumb_tip =
      (OpenCVHandTracker.thumb_index_assign
        (OpenCVHandTracker.fingertip_walk
          (c.hull.insertionSort (fun p q => p.2 ≤ q.2)) [])).1 := rfl
  have hit : (OpenCVHandTracker.extract_hand_info_from_contour c w h).index_tip =
      (OpenCVHandTracker.thumb_index_assign
        (OpenCVHandTracker.fingertip_walk
          (c.hull.insertionSort (fun p q => p.2 ≤ q.2)) [])).2.1 := rfl
  have hdist : (OpenCVHandTracker.extract_hand_info_from_contour c w h).distance_index_thumb =
      (OpenCVHandTracker.thumb_index_assign
        (OpenCVHandTracker.fingertip_walk
          (c.hull.insertionSort (fun p q => p.2 ≤ q.2)) [])).2.2 := rfl
  constructor
  · intro h2
    rw [hfe] at h2
    obtain ⟨tt, it, hassign, httm, hitm, hbounds⟩ :=
      (thumb_index_assign_spec _).1 h2
    refine ⟨tt, it, ?_, ?_, ?_, ?_, ?_, ?_, ?_, ?_⟩
    · rw [hth, hassign]
    · rw [hit, hassign]
    · rw [hfe]; exact httm
    · rw [hfe]; exact hitm
    · rw [hfe]; exact List.take_subset 3 _ httm
    · rw [hfe]; exact List.take_subset 3 _ hitm
    · rw [hfe]; exact hbounds
    · rw [hdist, hassign]
  · intro hlt
    rw [hfe] at hlt
    have hassign := (thumb_index_assign_spec _).2 hlt
    exact ⟨by rw [hth, hassign], by rw [hit, hassign], by rw [hdist, hassign]⟩

/-- C3 witness: on a concrete contour with two candidates, the roles are
assigned. -/
theorem thumb_index_role_assignment_witness :
    2 ≤ (OpenCVHandTracker.extract_hand_info_from_contour
      ⟨2500, 1, 0, 0, [(0, 0), (0, 100)]⟩ 640 480).fingertips.length ∧
    ∃ tt it,
      (OpenCVHandTracker.extract_hand_info_from_contour
        ⟨2500, 1, 0, 0, [(0, 0), (0, 100)]⟩ 640 480).thumb_tip = some tt ∧
      (OpenCVHandTracker.extract_hand_info_from_contour
        ⟨2500, 1, 0, 0, [(0, 0), (0, 100)]⟩ 640 480).index_tip = some it ∧
      tt ∈ (OpenCVHandTracker.extract_hand_info_from_contour
        ⟨2500, 1, 0, 0, [(0, 0), (0, 100)]⟩ 640 480).fingertips.take 3 ∧
      it ∈ (OpenCVHandTracker.extract_hand_info_from_contour
        ⟨2500, 1, 0, 0, [(0, 0), (0, 100)]⟩ 640 480).fingertips.take 3 ∧
      tt ∈ (OpenCVHandTracker.extract_hand_info_from_contour
        ⟨2500, 1, 0, 0, [(0, 0), (0, 100)]⟩ 640 480).fingertips ∧
      it ∈ (OpenCVHandTracker.extract_hand_info_from_contour
        ⟨2500, 1, 0, 0, [(0, 0), (0, 100)]⟩ 640 480).fingertips ∧
      (∀ p ∈ (OpenCVHandTracker.extract_hand_info_from_contour
        ⟨2500, 1, 0, 0, [(0, 0), (0, 100)]⟩ 640 480).fingertips.take 3,
        tt.1 ≤ p.1 ∧ p.1 ≤ it.1) ∧
      (OpenCVHandTracker.extract_hand_info_from_contour
        ⟨2500, 1, 0, 0, [(0, 0), (0, 100)]⟩ 640 480).distance_index_thumb = hypot it tt :=
  ⟨by decide,
    (thumb_index_role_assignment ⟨2500, 1, 0, 0, [(0, 0), (0, 100)]⟩ 640 480).1 (by decide)⟩

/-- C10: the heuristic fingertip list is a subsequence of the hull points
sorted by `y` ascending, so its `y`-coordinates are non-decreasing, and on a
nonempty hull its first point is a topmost hull point. -/
theorem fingertips_follow_sorted_hull (c : Contour) (w h : ℕ) :
    ((OpenCVHandTracker.extract_hand_info_from_contour c w h).fingertips.Sublist
      (c.hull.insertionSort (fun p q => p.2 ≤ q.2))) ∧
    ((OpenCVHandTracker.extract_hand_info_from_contour c w h).fingertips.Pairwise
      (fun p q => p.2 ≤ q.2)) ∧
    (c.hull ≠ [] → ∃ hd,
      (OpenCVHandTracker.extract_hand_info_from_contour c w h).fingertips.head? = some hd ∧
      hd ∈ c.hull ∧ ∀ q ∈ c.hull, hd.2 ≤ q.2) := by
  have hfe : (OpenCVHandTracker.extract_hand_info_from_contour c w h).fingertips =
      OpenCVHandTracker.fingertip_walk
        (c.hull.insertionSort (fun p q => p.2 ≤ q.2)) [] := rfl
  haveI : IsTotal Pt (fun p q : Pt => p.2 ≤ q.2) := ⟨fun a b => le_total _ _⟩
  haveI : IsTrans Pt (fun p q : Pt => p.2 ≤ q.2) := ⟨fun a b c hab hbc => le_trans hab hbc⟩
  have hsorted : (c.hull.insertionSort (fun p q => p.2 ≤ q.2)).Pairwise
      (fun p q : Pt => p.2 ≤ q.2) :=
    List.sorted_insertionSort (fun p q : Pt => p.2 ≤ q.2) c.hull
  obtain ⟨r, hr, hsub⟩ :=
    fingertip_walk_append (c.hull.insertionSort (fun p q => p.2 ≤ q.2)) []
  simp only [List.nil_append] at hr
  refine ⟨?_, ?_, ?_⟩
  · rw [hfe, hr]; exact hsub
  · rw [hfe, hr]; exact hsorted.sublist hsub
  · intro hne
    obtain ⟨e, hhead, hmem, hmin⟩ :=
      head_insertionSort_key_min (fun p : Pt => p.2) c.hull hne
    cases hsort : c.hull.insertionSort (fun p q => p.2 ≤ q.2) with
    | nil => rw [hsort] at hhead; simp at hhead
    | cons p rest =>
      rw [hsort] at hhead
      simp only [List.head?_cons, Option.some.injEq] at hhead
      obtain ⟨r', hr', _⟩ := fingertip_walk_append rest [p]
      refine ⟨e, ?_, hmem, hmin⟩
      rw [hfe, hsort, fingertip_walk_cons, hr', hhead]
      rfl

/-- C10 witness: on a concrete contour the fingertip list is a sublist of
the sorted hull with a topmost first point. -/
theorem fingertips_follow_sorted_hull_witness :
    ((⟨2500, 1, 0, 0, [(7, 5), (0, 0), (100, 0)]⟩ : Contour).hull ≠ []) ∧
    ∃ hd,
      (OpenCVHandTracker.extract_hand_info_from_contour
        ⟨2500, 1, 0, 0, [(7, 5), (0, 0), (100, 0)]⟩ 640 480).fingertips.head? = some hd ∧
      hd ∈ (⟨2500, 1, 0, 0, [(7, 5), (0, 0), (100, 0)]⟩ : Contour).hull ∧
      ∀ q ∈ (⟨2500, 1, 0, 0, [(7, 5), (0, 0), (100, 0)]⟩ : Contour).hull, hd.2 ≤ q.2 :=
  ⟨by decide,
    (fingertips_follow_sorted_hull ⟨2500, 1, 0, 0, [(7, 5), (0, 0), (100, 0)]⟩ 640 480).2.2
      (by decide)⟩

/-- C7 counterexample: a frame whose mask yields no contours returns early,
so nothing is appended to the temporal buffer on that call — the history is
not the old history plus the frame's output list. -/
theorem process_no_contours_skips_history :
    (OpenCVHandTracker.process [] 640 480 []).2 ≠
      [] ++ [(OpenCVHandTracker.process [] 640 480 []).1] := by
  simp [OpenCVHandTracker.process]

/-- C7 (amended): on every call with at least one contour, exactly the
frame's output hand list is appended to the temporal buffer, which keeps at
most the 6 most recent lists with the oldest dropped first; a call with no
contours returns early and leaves the buffer unchanged. -/
theorem history_append_per_processed_frame (contours : List Contour) (w h : ℕ)
    (history : List (List HandInfo)) (hne : contours ≠ []) (hlen : history.length ≤ 6) :
    (OpenCVHandTracker.process contours w h history).2 =
      history.drop (history.length + 1 - 6) ++
        [(OpenCVHandTracker.process contours w h history).1] ∧
    (OpenCVHandTracker.process contours w h history).2.length ≤ 6 ∧
    (OpenCVHandTracker.process [] w h history).2 = history := by
  obtain ⟨c, t, rfl⟩ : ∃ c t, contours = c :: t := by
    cases contours with
    | nil => exact absurd rfl hne
    | cons c t => exact ⟨c, t, rfl⟩
  have h2 : (OpenCVHandTracker.process (c :: t) w h history).2 =
      OpenCVHandTracker.push_history history
        (OpenCVHandTracker.process (c :: t) w h history).1 := rfl
  refine ⟨?_, ?_, rfl⟩
  · rw [h2]
    unfold OpenCVHandTracker.push_history
    rw [List.length_append, List.length_singleton]
    exact List.drop_append_of_le_length (by omega)
  · rw [h2]
    unfold OpenCVHandTracker.push_history
    rw [List.length_drop, List.length_append, List.length_singleton]
    omega

/-- C7 witness: a call with one contour appends its output list to an empty
buffer. -/
theorem history_append_per_processed_frame_witness :
    (([⟨2500, 1, 0, 0, []⟩] : List Contour) ≠ []) ∧
    (([] : List (List HandInfo)).length ≤ 6) ∧
    (OpenCVHandTracker.process [⟨2500, 1, 0, 0, []⟩] 640 480 []).2 =
      ([] : List (List HandInfo)).drop (([] : List (List HandInfo)).length + 1 - 6) ++
        [(OpenCVHandTracker.process [⟨2500, 1, 0, 0, []⟩] 640 480 []).1] :=
  ⟨by simp, by simp,
    (history_append_per_processed_frame [⟨2500, 1, 0, 0, []⟩] 640 480 [] (by simp) (by simp)).1⟩

/-- C6: the derived `side` is a pure function of `center.x` against `w/2`:
`left` when `center.x < w/2`, `right` otherwise (in particular `right` at
exactly `w/2`), `null` without a center, and no other field of the HandInfo
affects it. -/
theorem side_from_center_only (info : HandInfo) (w h : ℕ) :
    (∀ cpt : Pt, info.center = some cpt →
      (derive info w h).side =
        some (if (cpt.1 : ℚ) < (w : ℚ) / 2 then Side.left else Side.right) ∧
      (2 * cpt.1 = (w : ℤ) → (derive info w h).side = some Side.right)) ∧
    (info.center = none → (derive info w h).side = none) ∧
    (∀ info2 : HandInfo, info2.center = info.center →
      (derive info2 w h).side = (derive info w h).side) := by
  refine ⟨?_, ?_, ?_⟩
  · intro cpt hc
    have h1 : (derive info w h).side =
        some (if (cpt.1 : ℚ) < (w : ℚ) / 2 then Side.left else Side.right) := by
      rw [derive_side, hc]
    refine ⟨h1, fun heq => ?_⟩
    have hx : ((cpt.1 : ℚ)) = (w : ℚ) / 2 := by
      have h2 : ((2 * cpt.1 : ℤ) : ℚ) = ((w : ℤ) : ℚ) := by exact_mod_cast heq
      push_cast at h2
      linarith
    rw [h1, if_neg (by rw [hx]; exact lt_irrefl _)]
  · intro hc
    rw [derive_side, hc]
  · intro info2 h2
    rw [derive_side, derive_side, h2]

/-- C6 witness: a center exactly at `w/2` classifies as `right`. -/
theorem side_from_center_only_witness :
    ((⟨true, some (320, 10), none, [], none, none, none, 0, none⟩ : HandInfo).center =
      some ((320, 10) : Pt)) ∧
    (2 * (320 : ℤ) = (640 : ℤ)) ∧
    (derive ⟨true, some (320, 10), none, [], none, none, none, 0, none⟩ 640 480).side =
      some Side.right :=
  ⟨rfl, by decide,
    ((side_from_center_only ⟨true, some (320, 10), none, [], none, none, none, 0, none⟩
      640 480).1 (320, 10) rfl).2 (by decide)⟩

/-- C8: pinch selection is monotone in the threshold — if a pinch finger is
selected at threshold `t1`, the same finger is selected at any `t2 ≥ t1`. -/
theorem pinch_threshold_monotone {α : Type} [LinearOrder α] (dist_map : List (Finger × α))
    (t1 t2 : α) (h12 : t1 ≤ t2) (f : Finger) (h1 : pinch_select dist_map t1 = some f) :
    pinch_select dist_map t2 = some f := by
  unfold pinch_select at h1 ⊢
  cases hh : (dist_map.insertionSort (fun a b => a.2 ≤ b.2)).head? with
  | none =>
    rw [hh] at h1
    exact absurd h1 (by simp)
  | some e =>
    rw [hh] at h1
    simp only at h1 ⊢
    by_cases hlt : e.2 < t1
    · rw [if_pos hlt] at h1
      rw [if_pos (lt_of_lt_of_le hlt h12)]
      exact h1
    · rw [if_neg hlt] at h1
      exact absurd h1 (by simp)

/-- C8 witness: a pinch selected at threshold 2 is still selected at 3. -/
theorem pinch_threshold_monotone_witness :
    ((2 : ℚ) ≤ 3) ∧
    (pinch_select [(Finger.index, (1 : ℚ))] 2 = some Finger.index) ∧
    (pinch_select [(Finger.index, (1 : ℚ))] 3 = some Finger.index) :=
  ⟨by decide, by decide,
    pinch_threshold_monotone [(Finger.index, (1 : ℚ))] 2 3 (by decide) Finger.index (by decide)⟩

lemma frameDiag_nonneg (w h : ℕ) : 0 ≤ frameDiag w h := Real.sqrt_nonneg _

/-- C9: the MediaPipe-backend HandInfo honours the fixed landmark-index
contract: thumb = pts[4], index = pts[8], fingertips = pts[4,8,12,16,20] in
order, the named map accordingly, the center is the truncated midpoint of
pts[0] and pts[9], `hand_size_norm` is the wrist-to-middle-tip distance
over the frame diagonal, and `distance_index_thumb` the index-thumb
distance. -/
theorem landmark_assembly (pts : List Pt) (w h : ℕ) (hl : pts.length = 21) :
    (MediaPipeHandTracker.hand_info pts w h).thumb_tip = some (pts.get ⟨4, by omega⟩) ∧
    (MediaPipeHandTracker.hand_info pts w h).index_tip = some (pts.get ⟨8, by omega⟩) ∧
    (MediaPipeHandTracker.hand_info pts w h).fingertips =
      [pts.get ⟨4, by omega⟩, pts.get ⟨8, by omega⟩, pts.get ⟨12, by omega⟩,
        pts.get ⟨16, by omega⟩, pts.get ⟨20, by omega⟩] ∧
    (∃ nm, (MediaPipeHandTracker.hand_info pts w h).fingertips_named = some nm ∧
      nm Finger.thumb = pts.get ⟨4, by omega⟩ ∧
      nm Finger.index = pts.get ⟨8, by omega⟩ ∧
      nm Finger.middle = pts.get ⟨12, by omega⟩ ∧
      nm Finger.ring = pts.get ⟨16, by omega⟩ ∧
      nm Finger.pinky = pts.get ⟨20, by omega⟩) ∧
    (MediaPipeHandTracker.hand_info pts w h).center = some
      (pyInt ((((pts.get ⟨0, by omega⟩).1 + (pts.get ⟨9, by omega⟩).1 : ℤ) : ℚ) / 2),
       pyInt ((((pts.get ⟨0, by omega⟩).2 + (pts.get ⟨9, by omega⟩).2 : ℤ) : ℚ) / 2)) ∧
    (MediaPipeHandTracker.hand_info pts w h).hand_size_norm = some
      (hypot (pts.get ⟨12, by omega⟩) (pts.get ⟨0, by omega⟩) / frameDiag w h) ∧
    (MediaPipeHandTracker.hand_info pts w h).distance_index_thumb =
      hypot (pts.get ⟨8, by omega⟩) (pts.get ⟨4, by omega⟩) := by
  have hg : ∀ i : ℕ, ∀ hi : i < pts.length, pts.getD i (0, 0) = pts.get ⟨i, hi⟩ := by
    intro i hi
    rw [List.getD_eq_getElem pts (0, 0) hi, List.get_eq_getElem]
  refine ⟨?_, ?_, ?_,
    ⟨MediaPipeHandTracker.named_map pts, rfl, ?_, ?_, ?_, ?_, ?_⟩, ?_, ?_, ?_⟩
  · show some (pts.getD 4 (0, 0)) = _
    rw [hg 4 (by omega)]
  · show some (pts.getD 8 (0, 0)) = _
    rw [hg 8 (by omega)]
  · show [pts.getD 4 (0, 0), pts.getD 8 (0, 0), pts.getD 12 (0, 0),
      pts.getD 16 (0, 0), pts.getD 20 (0, 0)] = _
    rw [hg 4 (by omega), hg 8 (by omega), hg 12 (by omega), hg 16 (by omega),
      hg 20 (by omega)]
  · show pts.getD 4 (0, 0) = _
    rw [hg 4 (by omega)]
  · show pts.getD 8 (0, 0) = _
    rw [hg 8 (by omega)]
  · show pts.getD 12 (0, 0) = _
    rw [hg 12 (by omega)]
  · show pts.getD 16 (0, 0) = _
    rw [hg 16 (by omega)]
  · show pts.getD 20 (0, 0) = _
    rw [hg 20 (by omega)]
  · show some (pyInt ((((pts.getD 0 (0, 0)).1 + (pts.getD 9 (0, 0)).1 : ℤ) : ℚ) / 2),
        pyInt ((((pts.getD 0 (0, 0)).2 + (pts.getD 9 (0, 0)).2 : ℤ) : ℚ) / 2)) = _
    rw [hg 0 (by omega), hg 9 (by omega)]
  · show some (hypot (pts.getD 12 (0, 0)) (pts.getD 0 (0, 0)) / frameDiag w h) = _
    rw [hg 12 (by omega), hg 0 (by omega)]
  · show hypot (pts.getD 8 (0, 0)) (pts.getD 4 (0, 0)) = _
    rw [hg 8 (by omega), hg 4 (by omega)]

/-- C9 witness: on a concrete 21-landmark sequence the thumb tip is
landmark 4. -/
theorem landmark_assembly_witness :
    ((List.replicate 21 ((0, 0) : Pt)).length = 21) ∧
    (MediaPipeHandTracker.hand_info (List.replicate 21 ((0, 0) : Pt)) 640 480).thumb_tip =
      some ((List.replicate 21 ((0, 0) : Pt)).get ⟨4, by decide⟩) :=
  ⟨by decide,
    (landmark_assembly (List.replicate 21 ((0, 0) : Pt)) 640 480 (by decide)).1⟩

/-- C5 counterexample: a HandInfo whose `fingertips_named` is present (so it
holds non-thumb entries) but whose `thumb_tip` is unset makes the stage skip
the whole distance-map computation — `finger_dist_norm` is absent instead of
holding one entry per non-thumb finger, because the guard also requires the
thumb point. -/
theorem finger_dist_map_complete_counterexample :
    ((⟨true, none, none, [], some (fun _ => ((0, 0) : Pt)), none, none, 0, none⟩ :
      HandInfo).fingertips_named).isSome = true ∧
    (derive ⟨true, none, none, [], some (fun _ => ((0, 0) : Pt)), none, none, 0, none⟩
      640 480).finger_dist_norm = none :=
  ⟨rfl, rfl⟩

/-- C5 (amended): for every HandInfo whose `fingertips_named` is present AND
whose `thumb_tip` is set — which is true of every HandInfo either backend
produces: the landmark backend sets the thumb whenever it sets the named map,
and the heuristic backend never sets the named map — the derivation stage
builds `finger_dist_norm` with exactly one entry per non-thumb named finger,
each the Euclidean distance from that fingertip to the thumb tip divided by
the frame diagonal, hence non-negative. -/
theorem finger_dist_map_complete (info : HandInfo) (w h : ℕ) (tp : Pt)
    (nm : Finger → Pt) (pts : List Pt) (c : Contour)
    (hth : info.thumb_tip = some tp) (hnm : info.fingertips_named = some nm) :
    ((derive info w h).finger_dist_norm =
      some (nonThumbFingers.map (fun f => (f, hypot (nm f) tp / frameDiag w h)))) ∧
    ((nonThumbFingers.map (fun f => (f, hypot (nm f) tp / frameDiag w h))).map Prod.fst =
      [Finger.index, Finger.middle, Finger.ring, Finger.pinky]) ∧
    (∀ e ∈ nonThumbFingers.map (fun f => (f, hypot (nm f) tp / frameDiag w h)), 0 ≤ e.2) ∧
    ((MediaPipeHandTracker.hand_info pts w h).fingertips_named.isSome →
      (MediaPipeHandTracker.hand_info pts w h).thumb_tip.isSome) ∧
    (OpenCVHandTracker.extract_hand_info_from_contour c w h).fingertips_named = none := by
  refine ⟨?_, rfl, ?_, fun _ => rfl, rfl⟩
  · rw [derive_finger_dist_norm, hth, hnm]
  · intro e he
    simp only [List.mem_map] at he
    obtain ⟨f, _, rfl⟩ := he
    exact div_nonneg (hypot_nonneg _ _) (frameDiag_nonneg w h)

/-- C5 witness: a concrete HandInfo with both fields present yields the full
four-entry distance map. -/
theorem finger_dist_map_complete_witness :
    ((⟨true, none, none, [], some (fun _ => ((3, 4) : Pt)), some ((0, 0) : Pt), none, 0,
      none⟩ : HandInfo).thumb_tip = some ((0, 0) : Pt)) ∧
    ((⟨true, none, none, [], some (fun _ => ((3, 4) : Pt)), some ((0, 0) : Pt), none, 0,
      none⟩ : HandInfo).fingertips_named = some (fun _ => ((3, 4) : Pt))) ∧
    (derive ⟨true, none, none, [], some (fun _ => ((3, 4) : Pt)), some ((0, 0) : Pt), none, 0,
        none⟩ 640 480).finger_dist_norm =
      some (nonThumbFingers.map
        (fun f => (f, hypot ((fun _ => ((3, 4) : Pt)) f) ((0, 0) : Pt) / frameDiag 640 480))) :=
  ⟨rfl, rfl,
    (finger_dist_map_complete
      ⟨true, none, none, [], some (fun _ => ((3, 4) : Pt)), some ((0, 0) : Pt), none, 0, none⟩
      640 480 (0, 0) (fun _ => ((3, 4) : Pt)) [] ⟨0, 0, 0, 0, []⟩ rfl rfl).1⟩

/-- C4: when the derived `finger_dist_norm` map is non-empty, `pinch_finger`
is set if and only if the minimum value of the map is strictly below 0.05;
when set it names a finger attaining that minimum and `pinch_distance_norm`
is that minimum value; otherwise both fields are absent. -/
theorem pinch_selection_minimum (info : HandInfo) (w h : ℕ) (m : List (Finger × ℝ))
    (hm : (derive info w h).finger_dist_norm = some m) (hne : m ≠ []) :
    ∃ f0 v0, (f0, v0) ∈ m ∧ (∀ x ∈ m, v0 ≤ x.2) ∧
      (((derive info w h).pinch_finger).isSome ↔ v0 < (0.05 : ℝ)) ∧
      (v0 < (0.05 : ℝ) → (derive info w h).pinch_finger = some f0 ∧
        (derive info w h).pinch_distance_norm = some v0) ∧
      (¬ v0 < (0.05 : ℝ) → (derive info w h).pinch_finger = none ∧
        (derive info w h).pinch_distance_norm = none) := by
  have hfm := derive_finger_dist_norm info w h
  rw [hm] at hfm
  rcases hth : info.thumb_tip with _ | tp
  · rw [hth] at hfm
    exact absurd hfm (by simp)
  rcases hnm : info.fingertips_named with _ | nm
  · rw [hth, hnm] at hfm
    exact absurd hfm (by simp)
  rw [hth, hnm] at hfm
  simp only [Option.some.injEq] at hfm
  have hkeys : m.map Prod.fst = nonThumbFingers := by
    rw [hfm]
    rfl
  have hnd : (m.map Prod.fst).Nodup := by
    rw [hkeys]
    decide
  obtain ⟨e, hhead, hmem, hmin⟩ :=
    head_insertionSort_key_min (fun x : Finger × ℝ => x.2) m hne
  have hpf : (derive info w h).pinch_finger = pinch_select m (0.05 : ℝ) := by
    rw [derive_pinch_finger, hm]
  have hps : pinch_select m (0.05 : ℝ) =
      if e.2 < (0.05 : ℝ) then some e.1 else none := by
    unfold pinch_select
    rw [hhead]
  refine ⟨e.1, e.2, by simpa using hmem, fun x hx => hmin x hx, ?_, ?_, ?_⟩
  · rw [hpf, hps]
    by_cases h05 : e.2 < (0.05 : ℝ)
    · simp [h05]
    · simp [h05]
  · intro h05
    have hpfe : (derive info w h).pinch_finger = some e.1 := by
      rw [hpf, hps, if_pos h05]
    refine ⟨hpfe, ?_⟩
    rw [derive_pinch_distance_norm, hpfe, hm]
    have hfind : m.find? (fun x => decide (x.1 = e.1)) = some e :=
      find?_key_of_nodup m hnd e hmem
    simp only [hfind, Option.map_some']
  · intro h05
    have hpfe : (derive info w h).pinch_finger = none := by
      rw [hpf, hps, if_neg h05]
    refine ⟨hpfe, ?_⟩
    rw [derive_pinch_distance_norm, hpfe]

/-- C4 witness: a concrete hand with all fingertips at the thumb position has
a non-empty derived map and the pinch characterization holds for it. -/
theorem pinch_selection_minimum_witness :
    ((derive ⟨true, none, none, [], some (fun _ => ((0, 0) : Pt)), some (0, 0), none, 0, none⟩
        640 480).finger_dist_norm =
      some (nonThumbFingers.map
        (fun f => (f, hypot ((0, 0) : Pt) ((0, 0) : Pt) / frameDiag 640 480)))) ∧
    (nonThumbFingers.map
      (fun f => (f, hypot ((0, 0) : Pt) ((0, 0) : Pt) / frameDiag 640 480)) ≠ []) ∧
    (∃ f0 v0,
      (f0, v0) ∈ nonThumbFingers.map
        (fun f => (f, hypot ((0, 0) : Pt) ((0, 0) : Pt) / frameDiag 640 480)) ∧
      (∀ x ∈ nonThumbFingers.map
        (fun f => (f, hypot ((0, 0) : Pt) ((0, 0) : Pt) / frameDiag 640 480)), v0 ≤ x.2) ∧
      (((derive ⟨true, none, none, [], some (fun _ => ((0, 0) : Pt)), some (0, 0), none, 0,
          none⟩ 640 480).pinch_finger).isSome ↔ v0 < (0.05 : ℝ)) ∧
      (v0 < (0.05 : ℝ) →
        (derive ⟨true, none, none, [], some (fun _ => ((0, 0) : Pt)), some (0, 0), none, 0,
          none⟩ 640 480).pinch_finger = some f0 ∧
        (derive ⟨true, none, none, [], some (fun _ => ((0, 0) : Pt)), some (0, 0), none, 0,
          none⟩ 640 480).pinch_distance_norm = some v0) ∧
      (¬ v0 < (0.05 : ℝ) →
        (derive ⟨true, none, none, [], some (fun _ => ((0, 0) : Pt)), some (0, 0), none, 0,
          none⟩ 640 480).pinch_finger = none ∧
        (derive ⟨true, none, none, [], some (fun _ => ((0, 0) : Pt)), some (0, 0), none, 0,
          none⟩ 640 480).pinch_distance_norm = none)) :=
  ⟨rfl, by simp [nonThumbFingers],
    pinch_selection_minimum
      ⟨true, none, none, [], some (fun _ => ((0, 0) : Pt)), some (0, 0), none, 0, none⟩
      640 480 _ rfl (by simp [nonThumbFingers])⟩
